import Mathlib

/-!
Verification of the core scheduling engine of the Vibra Softech resource
scheduling system, shallowly embedded from the Python source
(src/core/models.py and src/core/scheduler.py).

Modelling conventions:
* Instants (datetime values) are rationals counting hours since an epoch;
  the calendar date of an instant t is the integer floor of t / 24.
  Durations are therefore exact rationals, as are all hour totals and
  costs (the Python source uses floats; every concrete value appearing in
  the claims is exactly representable, and all comparisons involved are
  between such values, so rational arithmetic is faithful there).
* Mutation of Python objects becomes explicit state passing; methods that
  raise become Option-valued functions, with none for the raising path.
* The employee and project back references inside Assignment objects are
  replaced by integer ids resolved through the owning Schedule, exactly
  as the id-keyed arena the specification describes; the Schedule
  enforces id uniqueness, under which the translation is faithful.
* The tie-break noise drawn by random.random in the scheduler is
  modelled by an explicit stream (a function from draw index to a
  rational) together with a cursor, the index of the next unconsumed
  draw.  The global Python generator corresponds to threading one stream
  and cursor through successive calls.
* Python list.sort and sorted are stable; sortBy below is a stable
  insertion sort used wherever the source sorts.
-/

namespace VibraSched

/-- One of the five fixed production roles (class SkillType in models.py). -/
inductive SkillType where
  | PRODUCER
  | EDITOR
  | GRAPHICS_DESIGNER
  | COLORIST
  | AUDIO_ENGINEER
deriving DecidableEq, Repr

/-- The .value string of a SkillType member. -/
def SkillType.value : SkillType → String
  | .PRODUCER => "Producer"
  | .EDITOR => "Editor"
  | .GRAPHICS_DESIGNER => "Graphics Designer"
  | .COLORIST => "Colorist"
  | .AUDIO_ENGINEER => "Audio Engineer"

/-- Project status enumeration (class ProjectStatus in models.py). -/
inductive ProjectStatus where
  | PENDING
  | SCHEDULED
  | IN_PROGRESS
  | COMPLETED
  | CANCELLED
deriving DecidableEq, Repr

/-- A half open time interval; fields are instants in hours since the
epoch (class TimeSlot in models.py). -/
structure TimeSlot where
  start : ℚ
  «end» : ℚ
deriving DecidableEq, Repr

/-- The constructor invariant checked by TimeSlot.__post_init__:
end must be strictly after start. -/
def TimeSlot.valid (s : TimeSlot) : Bool := decide (s.start < s.«end»)

/-- TimeSlot.duration_hours. -/
def TimeSlot.duration_hours (s : TimeSlot) : ℚ := s.«end» - s.start

/-- TimeSlot.overlaps_with: not (self.end <= other.start or
self.start >= other.end). -/
def TimeSlot.overlaps_with (a other : TimeSlot) : Bool :=
  !(decide (a.«end» ≤ other.start) || decide (a.start ≥ other.«end»))

/-- The calendar date of an instant: datetime.date() becomes the day
index, the floor of the instant divided by 24. -/
def dateOf (t : ℚ) : ℤ := ⌊t / 24⌋

/-- An assignment record (class Assignment in models.py); the employee
and project object references become ids resolved via the Schedule. -/
structure Assignment where
  employee_id : ℤ
  project_id : ℤ
  time_slot : TimeSlot
deriving DecidableEq, Repr

/-- An employee (class Employee in models.py). -/
structure Employee where
  id : ℤ
  name : String
  skills : List SkillType
  regular_hours_worked : ℚ := 0
  overtime_hours_worked : ℚ := 0
  assignments : List Assignment := []
  unavailable_slots : List TimeSlot := []
deriving DecidableEq, Repr

/-- Employee.MAX_REGULAR_HOURS_PER_DAY. -/
def MAX_REGULAR_HOURS_PER_DAY : ℚ := 8

/-- Employee.REGULAR_RATE. -/
def REGULAR_RATE : ℚ := 1

/-- Employee.OVERTIME_RATE. -/
def OVERTIME_RATE : ℚ := 13 / 10

/-- Employee.has_skill: membership in the skill set. -/
def Employee.has_skill (e : Employee) (skill : SkillType) : Bool :=
  decide (skill ∈ e.skills)

/-- Employee.is_available: false if the slot overlaps any unavailable
slot or any existing assignment slot. -/
def Employee.is_available (e : Employee) (time_slot : TimeSlot) : Bool :=
  e.unavailable_slots.all (fun u => !time_slot.overlaps_with u) &&
  e.assignments.all (fun a => !time_slot.overlaps_with a.time_slot)

/-- The daily-hours sum inside Employee._update_hours: the sum of
durations of the assignments currently in the list whose start date
equals the given date. -/
def Employee.dailyHoursOn (e : Employee) (d : ℤ) : ℚ :=
  ((e.assignments.filter (fun a => decide (dateOf a.time_slot.start = d))).map
    (fun a => a.time_slot.duration_hours)).sum

/-- Employee._update_hours, applied to the state in which the new
assignment has already been appended (as in the source, where
add_assignment appends before calling _update_hours, so the daily sum
includes the new assignment itself). -/
def Employee.update_hours (e : Employee) (time_slot : TimeSlot) : Employee :=
  let hours := time_slot.duration_hours
  let assignment_date := dateOf time_slot.start
  let daily_hours := e.dailyHoursOn assignment_date
  if daily_hours ≤ MAX_REGULAR_HOURS_PER_DAY then
    let regular := min hours (MAX_REGULAR_HOURS_PER_DAY - daily_hours)
    let overtime := max 0 (hours - regular)
    { e with regular_hours_worked := e.regular_hours_worked + regular,
             overtime_hours_worked := e.overtime_hours_worked + overtime }
  else
    { e with overtime_hours_worked := e.overtime_hours_worked + hours }

/-- Employee.add_assignment: raises (none) if the employee is not
available for the slot; otherwise appends the assignment and updates the
hour totals.  The availability check precedes every state change. -/
def Employee.add_assignment (e : Employee) (assignment : Assignment) : Option Employee :=
  if e.is_available assignment.time_slot then
    some (Employee.update_hours
      { e with assignments := e.assignments ++ [assignment] }
      assignment.time_slot)
  else
    none

/-- Employee.get_total_cost. -/
def Employee.get_total_cost (e : Employee) : ℚ :=
  e.regular_hours_worked * REGULAR_RATE + e.overtime_hours_worked * OVERTIME_RATE

/-- Committing a list of assignments in order through add_assignment,
skipping the ones that raise (the scheduler catches the ValueError and
moves on, leaving the employee untouched by the failed commit). -/
def Employee.commitAll (e : Employee) : List Assignment → Employee
  | [] => e
  | a :: rest =>
    match e.add_assignment a with
    | some e' => e'.commitAll rest
    | none => e.commitAll rest

/-- A successful add_assignment appends exactly the new assignment. -/
theorem add_assignment_assignments {e e' : Employee} {a : Assignment}
    (h : e.add_assignment a = some e') :
    e'.assignments = e.assignments ++ [a] := by
  unfold Employee.add_assignment at h
  split at h
  · cases h
    unfold Employee.update_hours
    dsimp only
    split <;> rfl
  · cases h

/-- A successful add_assignment leaves the unavailable slots unchanged. -/
theorem add_assignment_unavailable {e e' : Employee} {a : Assignment}
    (h : e.add_assignment a = some e') :
    e'.unavailable_slots = e.unavailable_slots := by
  unfold Employee.add_assignment at h
  split at h
  · cases h
    unfold Employee.update_hours
    dsimp only
    split <;> rfl
  · cases h

/-- A successful add_assignment increases the running hour totals by
exactly the duration of the committed slot: in the daily-cap branch the
regular part is at most the duration, so regular plus overtime equals
the duration; in the other branch everything is overtime. -/
theorem add_assignment_hours_sum {e e' : Employee} {a : Assignment}
    (h : e.add_assignment a = some e') :
    e'.regular_hours_worked + e'.overtime_hours_worked
      = e.regular_hours_worked + e.overtime_hours_worked
          + a.time_slot.duration_hours := by
  unfold Employee.add_assignment at h
  split at h
  · cases h
    unfold Employee.update_hours
    dsimp only
    split
    · have hr : min a.time_slot.duration_hours
          (MAX_REGULAR_HOURS_PER_DAY -
            Employee.dailyHoursOn
              { e with assignments := e.assignments ++ [a] }
              (dateOf a.time_slot.start))
          ≤ a.time_slot.duration_hours := min_le_left _ _
      have hmax : max 0 (a.time_slot.duration_hours -
          min a.time_slot.duration_hours
            (MAX_REGULAR_HOURS_PER_DAY -
              Employee.dailyHoursOn
                { e with assignments := e.assignments ++ [a] }
                (dateOf a.time_slot.start)))
          = a.time_slot.duration_hours -
            min a.time_slot.duration_hours
              (MAX_REGULAR_HOURS_PER_DAY -
                Employee.dailyHoursOn
                  { e with assignments := e.assignments ++ [a] }
                  (dateOf a.time_slot.start)) :=
        max_eq_right (by linarith)
      dsimp only
      rw [hmax]
      ring
    · dsimp only
      ring
  · cases h

/-- Fresh employee used in the hours-accounting counterexamples. -/
def hoursEmp : Employee :=
  { id := 1, name := "Alice", skills := [SkillType.PRODUCER] }

/-- C1: the regular/overtime split recorded for a commit is computed from
priorDailyHours, the same-day hours committed BEFORE this assignment.
The source appends the new assignment before calling _update_hours, so
the daily sum already includes the new assignment itself: committing a
single 5-hour slot on a fresh day records regular = 3 and overtime = 2,
where the claim (and the worked example in the specification, and the
companion Assignment.get_cost, which excludes the assignment itself)
require regular = 5 and overtime = 0. -/
theorem C1_daily_sum_includes_new_assignment :
    (hoursEmp.add_assignment ⟨1, 100, ⟨9, 14⟩⟩).map
        (fun e => (e.regular_hours_worked, e.overtime_hours_worked))
      = some (3, 2) ∧
    (hoursEmp.add_assignment ⟨1, 100, ⟨9, 14⟩⟩).map
        (fun e => (e.regular_hours_worked, e.overtime_hours_worked))
      ≠ some (5, 0) := by
  constructor <;>
    norm_num [hoursEmp, Employee.add_assignment, Employee.is_available,
      Employee.update_hours, Employee.dailyHoursOn, TimeSlot.overlaps_with,
      TimeSlot.duration_hours, dateOf, MAX_REGULAR_HOURS_PER_DAY]

/-- C2: the claim says the same-day overtime total is independent of the
commit order, with 5h-then-4h and 4h-then-5h both totalling regular = 8,
overtime = 1.  In the source the daily sum inside _update_hours includes
the assignment being committed, so 5h then 4h on one day totals
(regular, overtime) = (3, 6) while 4h then 5h totals (4, 5): the totals
differ between the two orders and neither matches the claimed (8, 1). -/
theorem C2_overtime_total_depends_on_commit_order :
    (let e54 := hoursEmp.commitAll [⟨1, 100, ⟨9, 14⟩⟩, ⟨1, 101, ⟨14, 18⟩⟩]
     (e54.regular_hours_worked, e54.overtime_hours_worked) = ((3 : ℚ), (6 : ℚ))) ∧
    (let e45 := hoursEmp.commitAll [⟨1, 100, ⟨9, 13⟩⟩, ⟨1, 101, ⟨13, 18⟩⟩]
     (e45.regular_hours_worked, e45.overtime_hours_worked) = ((4 : ℚ), (5 : ℚ))) := by
  constructor <;>
    norm_num [hoursEmp, Employee.commitAll, Employee.add_assignment,
      Employee.is_available, Employee.update_hours, Employee.dailyHoursOn,
      TimeSlot.overlaps_with, TimeSlot.duration_hours, dateOf,
      MAX_REGULAR_HOURS_PER_DAY]

/-- C3: for every employee whose running totals currently account for
the durations of its committed assignments, after any further sequence
of commits (successful ones mutate, failing ones are skipped unchanged)
the sum regular_hours_worked + overtime_hours_worked still equals the
sum of the durations of all committed assignments. -/
theorem C3_hours_total_equals_duration_sum (e : Employee)
    (h : e.regular_hours_worked + e.overtime_hours_worked
        = ((e.assignments.map fun a => a.time_slot.duration_hours).sum))
    (as : List Assignment) :
    (e.commitAll as).regular_hours_worked + (e.commitAll as).overtime_hours_worked
      = (((e.commitAll as).assignments.map fun a => a.time_slot.duration_hours).sum) := by
  induction as generalizing e with
  | nil => exact h
  | cons a rest ih =>
    unfold Employee.commitAll
    cases hadd : e.add_assignment a with
    | none => exact ih e h
    | some e' =>
      refine ih e' ?_
      rw [add_assignment_hours_sum hadd, add_assignment_assignments hadd, h]
      simp

/-- Witness for C3 at a concrete input: a fresh employee (totals zero,
no assignments) committing a 5-hour and then a 4-hour same-day slot. -/
theorem C3_hours_total_equals_duration_sum_witness :
    (hoursEmp.regular_hours_worked + hoursEmp.overtime_hours_worked
        = ((hoursEmp.assignments.map fun a => a.time_slot.duration_hours).sum)) ∧
    ((hoursEmp.commitAll [⟨1, 100, ⟨9, 14⟩⟩, ⟨1, 101, ⟨14, 18⟩⟩]).regular_hours_worked
        + (hoursEmp.commitAll [⟨1, 100, ⟨9, 14⟩⟩, ⟨1, 101, ⟨14, 18⟩⟩]).overtime_hours_worked
      = (((hoursEmp.commitAll [⟨1, 100, ⟨9, 14⟩⟩, ⟨1, 101, ⟨14, 18⟩⟩]).assignments.map
            fun a => a.time_slot.duration_hours).sum)) :=
  ⟨by norm_num [hoursEmp],
   C3_hours_total_equals_duration_sum hoursEmp (by norm_num [hoursEmp]) _⟩

/-- A project (class Project in models.py); assigned employees are kept
as ids resolved through the owning Schedule. -/
structure Project where
  id : ℤ
  name : String
  time_slot : TimeSlot
  required_skills : List SkillType
  assigned_employees : List ℤ := []
  status : ProjectStatus := ProjectStatus.PENDING
  priority : ℤ := 5
  is_fixed : Bool := true
deriving DecidableEq, Repr

/-- The Project constructor together with Project.__post_init__: raises
(none) unless required_skills has length 5 and its elements are
pairwise distinct (the source checks len(set(required_skills)) == 5,
which is the length of the deduplicated list); otherwise the fully
initialised project entity is returned. -/
def mkProject (id : ℤ) (name : String) (time_slot : TimeSlot)
    (required_skills : List SkillType) (priority : ℤ) (is_fixed : Bool) :
    Option Project :=
  if required_skills.length = 5 then
    if required_skills.dedup.length = 5 then
      some { id := id, name := name, time_slot := time_slot,
             required_skills := required_skills, priority := priority,
             is_fixed := is_fixed }
    else none
  else none

/-- Project.is_fully_staffed. -/
def Project.is_fully_staffed (p : Project) : Bool :=
  decide (p.assigned_employees.length = 5)

/-- The aggregate root owning all employees and projects of one run
(class Schedule in models.py). -/
structure Schedule where
  employees : List Employee := []
  projects : List Project := []
deriving DecidableEq, Repr

/-- Schedule.get_employee_by_id: the first employee with the id, or
none; next(..., None) over the employee list. -/
def Schedule.get_employee_by_id (s : Schedule) (employee_id : ℤ) : Option Employee :=
  s.employees.find? fun e => decide (e.id = employee_id)

/-- Schedule.get_project_by_id. -/
def Schedule.get_project_by_id (s : Schedule) (project_id : ℤ) : Option Project :=
  s.projects.find? fun p => decide (p.id = project_id)

/-- Schedule.add_employee: raises (none) when the id already exists. -/
def Schedule.add_employee (s : Schedule) (employee : Employee) : Option Schedule :=
  if s.employees.any (fun e => decide (e.id = employee.id)) then none
  else some { s with employees := s.employees ++ [employee] }

/-- Schedule.add_project: raises (none) when the id already exists. -/
def Schedule.add_project (s : Schedule) (project : Project) : Option Schedule :=
  if s.projects.any (fun p => decide (p.id = project.id)) then none
  else some { s with projects := s.projects ++ [project] }

/-- Schedule.get_available_employees: the employees holding the skill
and available for the slot, in employee-list order. -/
def Schedule.get_available_employees (s : Schedule) (time_slot : TimeSlot)
    (skill : SkillType) : List Employee :=
  s.employees.filter fun emp => emp.has_skill skill && emp.is_available time_slot

/-- Writing a mutated employee back into the arena: the in-place update
of the uniquely identified Employee object. -/
def Schedule.setEmployee (s : Schedule) (e : Employee) : Schedule :=
  { s with employees := s.employees.map fun x => if x.id = e.id then e else x }

/-- Writing a mutated project back into the arena. -/
def Schedule.setProject (s : Schedule) (p : Project) : Schedule :=
  { s with projects := s.projects.map fun x => if x.id = p.id then p else x }

/-- Project.get_missing_skills: the required skills, in declaration
order, for which no assigned employee holds the skill. -/
def Project.get_missing_skills (p : Project) (sched : Schedule) : List SkillType :=
  p.required_skills.filter fun required_skill =>
    !(p.assigned_employees.any fun eid =>
      match sched.get_employee_by_id eid with
      | some emp => emp.has_skill required_skill
      | none => false)

/-- Project.can_assign_employee: false if the employee is already
assigned, the project is fully staffed, the employee covers none of the
currently missing skills, or the employee is unavailable for the slot. -/
def Project.can_assign_employee (p : Project) (sched : Schedule)
    (employee : Employee) : Bool :=
  !(decide (employee.id ∈ p.assigned_employees)) &&
  !p.is_fully_staffed &&
  ((p.get_missing_skills sched).any fun skill => employee.has_skill skill) &&
  employee.is_available p.time_slot

/-- Project.assign_employee: raises (none) unless can_assign_employee;
otherwise appends the employee to the project, creates the Assignment
with the project slot, commits it on the employee, and marks the
project SCHEDULED once it reaches five assignees.  The inner
add_assignment cannot fail because can_assign_employee already verified
availability. -/
def Project.assign_employee (p : Project) (sched : Schedule)
    (employee : Employee) : Option (Project × Employee) :=
  if p.can_assign_employee sched employee then
    let p1 : Project :=
      { p with assigned_employees := p.assigned_employees ++ [employee.id] }
    match employee.add_assignment ⟨employee.id, p.id, p.time_slot⟩ with
    | some e' =>
      some (if p1.is_fully_staffed
            then { p1 with status := ProjectStatus.SCHEDULED } else p1, e')
    | none => none
  else none

/-- One insertion step of the stable sort: the new element goes after
every existing element that compares less-or-equal before it. -/
def insertStable (le : α → α → Bool) (x : α) : List α → List α
  | [] => [x]
  | y :: ys => if le y x then y :: insertStable le x ys else x :: y :: ys

/-- Stable sort modelling Python list.sort and sorted: elements that
compare equal keep their original relative order. -/
def sortBy (le : α → α → Bool) (l : List α) : List α :=
  l.foldl (fun acc x => insertStable le x acc) []

theorem insertStable_perm (le : α → α → Bool) (x : α) (l : List α) :
    (insertStable le x l).Perm (x :: l) := by
  induction l with
  | nil => exact List.Perm.refl _
  | cons y ys ih =>
    unfold insertStable
    split
    · exact ((ih.cons y).trans (List.Perm.swap x y ys))
    · exact List.Perm.refl _

theorem sortBy_foldl_perm (le : α → α → Bool) (l acc : List α) :
    (l.foldl (fun acc x => insertStable le x acc) acc).Perm (acc ++ l) := by
  induction l generalizing acc with
  | nil => simp
  | cons x xs ih =>
    have h1 : ((x :: xs).foldl (fun acc x => insertStable le x acc) acc)
        = xs.foldl (fun acc x => insertStable le x acc) (insertStable le x acc) := rfl
    rw [h1]
    refine (ih (insertStable le x acc)).trans ?_
    refine ((insertStable_perm le x acc).append_right xs).trans ?_
    simpa using (@List.perm_middle _ x acc xs).symm

/-- sortBy returns a permutation of its input. -/
theorem sortBy_perm (le : α → α → Bool) (l : List α) : (sortBy le l).Perm l := by
  simpa using sortBy_foldl_perm le l []

/-- All ordered pairs (earlier element, later element) of a list; the
double loop for i < j in ConflictDetector. -/
def allPairs : List α → List (α × α)
  | [] => []
  | x :: xs => (xs.map fun y => (x, y)) ++ allPairs xs

/-- ConflictDetector.find_employee_conflicts: sort the assignments by
start and collect every ordered pair whose slots overlap. -/
def find_employee_conflicts (employee : Employee) :
    List (Assignment × Assignment) :=
  let assignments :=
    sortBy (fun a b => decide (a.time_slot.start ≤ b.time_slot.start))
      employee.assignments
  (allPairs assignments).filter fun pr =>
    pr.1.time_slot.overlaps_with pr.2.time_slot

/-- C8: constructing a Project fails exactly when the required skill
list does not consist of 5 distinct skills, and in that case no project
entity is produced at all; in particular a 4-element list and a list
with a duplicate are both rejected. -/
theorem C8_project_skill_set_validated
    (id : ℤ) (name : String) (ts : TimeSlot) (skills : List SkillType)
    (priority : ℤ) (is_fixed : Bool) :
    (mkProject id name ts skills priority is_fixed = none
      ↔ ¬(skills.length = 5 ∧ skills.dedup.length = 5)) ∧
    mkProject 1 "P4" ⟨0, 4⟩
      [SkillType.PRODUCER, SkillType.EDITOR, SkillType.GRAPHICS_DESIGNER,
       SkillType.COLORIST] 5 true = none ∧
    mkProject 2 "Pdup" ⟨0, 4⟩
      [SkillType.PRODUCER, SkillType.PRODUCER, SkillType.GRAPHICS_DESIGNER,
       SkillType.COLORIST, SkillType.AUDIO_ENGINEER] 5 true = none := by
  refine ⟨?_, by decide, by decide⟩
  unfold mkProject
  constructor
  · intro h
    rintro ⟨h5, hd⟩
    rw [if_pos h5, if_pos hd] at h
    cases h
  · intro h
    by_cases h5 : skills.length = 5
    · by_cases hd : skills.dedup.length = 5
      · exact absurd ⟨h5, hd⟩ h
      · rw [if_pos h5, if_neg hd]
    · rw [if_neg h5]

/-- The first list element whose key equals i is the unique such
element when the keys are pairwise distinct. -/
theorem find_by_key_of_nodup {α : Type} (key : α → ℤ) (l : List α) (i : ℤ)
    (hnd : (l.map key).Nodup) (x : α) (hx : x ∈ l) (hk : key x = i) :
    l.find? (fun y => decide (key y = i)) = some x := by
  induction l with
  | nil => cases hx
  | cons h t ih =>
    rcases List.mem_cons.mp hx with rfl | hxt
    · simp [List.find?, hk]
    · have hne : key h ≠ i := by
        intro hh
        have : key x ∈ t.map key := List.mem_map_of_mem key hxt
        rw [hk, ← hh] at this
        exact (List.nodup_cons.mp (by simpa using hnd)).1 this
      have := ih (List.nodup_cons.mp (by simpa using hnd)).2 hxt
      simpa [List.find?, hne] using this

/-- C10: looking an id up in a Schedule never raises: it returns none
exactly when no entity carries the id, returns the unique carrier when
ids are pairwise distinct, and add_employee enforces that distinctness
by rejecting any id already present. -/
theorem C10_lookup_by_id (s : Schedule) (i : ℤ) :
    (s.get_employee_by_id i = none ↔ ∀ e ∈ s.employees, e.id ≠ i) ∧
    (s.get_project_by_id i = none ↔ ∀ p ∈ s.projects, p.id ≠ i) ∧
    ((s.employees.map Employee.id).Nodup →
      ∀ e ∈ s.employees, e.id = i → s.get_employee_by_id i = some e) ∧
    ((s.projects.map Project.id).Nodup →
      ∀ p ∈ s.projects, p.id = i → s.get_project_by_id i = some p) ∧
    (∀ e', s.add_employee e' = none ↔ ∃ e ∈ s.employees, e.id = e'.id) := by
  refine ⟨?_, ?_, ?_, ?_, ?_⟩
  · unfold Schedule.get_employee_by_id
    rw [List.find?_eq_none]
    simp
  · unfold Schedule.get_project_by_id
    rw [List.find?_eq_none]
    simp
  · intro hnd e he hei
    exact find_by_key_of_nodup Employee.id s.employees i hnd e he hei
  · intro hnd p hp hpi
    exact find_by_key_of_nodup Project.id s.projects i hnd p hp hpi
  · intro e'
    unfold Schedule.add_employee
    constructor
    · intro h
      by_cases hc : s.employees.any (fun e => decide (e.id = e'.id))
      · simpa using hc
      · rw [if_neg hc] at h
        cases h
    · intro h
      have : s.employees.any (fun e => decide (e.id = e'.id)) := by simpa using h
      rw [if_pos this]

/-- Schedule used in the lookup witness. -/
def lookupSched : Schedule :=
  { employees :=
      [{ id := 3, name := "A", skills := [SkillType.EDITOR] },
       { id := 7, name := "B", skills := [SkillType.COLORIST] }],
    projects := [] }

/-- Witness for C10 at a concrete schedule: id 7 is found, id 9 is not,
and adding a second employee with id 3 is rejected. -/
theorem C10_lookup_by_id_witness :
    lookupSched.get_employee_by_id 7
        = some { id := 7, name := "B", skills := [SkillType.COLORIST] } ∧
    lookupSched.get_employee_by_id 9 = none ∧
    lookupSched.add_employee { id := 3, name := "C", skills := [] } = none := by
  refine ⟨?_, ?_, ?_⟩
  · exact (C10_lookup_by_id lookupSched 7).2.2.1 (by decide) _ (by decide) (by decide)
  · exact (C10_lookup_by_id lookupSched 9).1.mpr (by decide)
  · exact ((C10_lookup_by_id lookupSched 3).2.2.2.2 _).mpr
      ⟨{ id := 3, name := "A", skills := [SkillType.EDITOR] }, by decide, by decide⟩

/-- Configuration flags of class GreedyScheduler (scheduler.py). -/
structure GreedyScheduler where
  balance_workload : Bool := true
  minimize_overtime : Bool := true
deriving DecidableEq, Repr

/-- GreedyScheduler._calculate_employee_score, with the random.random()
tie-break draw passed in explicitly: the workload term when
balance_workload is set, the remaining-regular-capacity term when
minimize_overtime is set, plus the noise. -/
def GreedyScheduler.calculate_employee_score (cfg : GreedyScheduler)
    (employee : Employee) (project : Project) (noise : ℚ) : ℚ :=
  (if cfg.balance_workload then
    1000 - (employee.regular_hours_worked + employee.overtime_hours_worked)
   else 0)
  + (if cfg.minimize_overtime then
      (max 0 (MAX_REGULAR_HOURS_PER_DAY -
        employee.dailyHoursOn (dateOf project.time_slot.start))) * 100
     else 0)
  + noise

/-- GreedyScheduler._select_best_employee: an empty candidate list
raises (none; unreachable from _schedule_project), a single candidate
is returned without consuming a draw, otherwise one draw per candidate
is consumed in candidate order, the scored list is stably sorted by
score descending, and the top candidate is returned. -/
def GreedyScheduler.select_best_employee (cfg : GreedyScheduler)
    (candidates : List Employee) (project : Project)
    (σ : ℕ → ℚ) (cursor : ℕ) : Option Employee × ℕ :=
  match candidates with
  | [] => (none, cursor)
  | [e] => (some e, cursor)
  | _ =>
    let scored := candidates.enum.map fun ke =>
      (cfg.calculate_employee_score ke.2 project (σ (cursor + ke.1)), ke.2)
    match sortBy (fun a b => decide (b.1 ≤ a.1)) scored with
    | top :: _ => (some top.2, cursor + candidates.length)
    | [] => (none, cursor + candidates.length)

/-- The skill loop of GreedyScheduler._schedule_project: iterate over
the missing skills computed once at entry; a skill with zero available
candidates makes the whole call return failure immediately; a commit
that raises ValueError is caught and the loop continues with the NEXT
SKILL (the except ValueError: continue in the source). -/
def GreedyScheduler.processSkills (cfg : GreedyScheduler) (st : Schedule)
    (pid : ℤ) (skills : List SkillType) (σ : ℕ → ℚ) (cursor : ℕ) :
    Schedule × ℕ × Bool :=
  match skills with
  | [] => (st, cursor, true)
  | skill :: rest =>
    match st.get_project_by_id pid with
    | none => (st, cursor, false)
    | some project =>
      let available := st.get_available_employees project.time_slot skill
      if available.isEmpty then
        (st, cursor, false)
      else
        match cfg.select_best_employee available project σ cursor with
        | (some best, cursor') =>
          match project.assign_employee st best with
          | some pe =>
            cfg.processSkills ((st.setProject pe.1).setEmployee pe.2) pid rest σ cursor'
          | none => cfg.processSkills st pid rest σ cursor'
        | (none, cursor') => cfg.processSkills st pid rest σ cursor'

/-- GreedyScheduler._schedule_project: run the skill loop on the
missing skills of the project and report is_fully_staffed unless the
loop bailed out on a skill without candidates. -/
def GreedyScheduler.schedule_project (cfg : GreedyScheduler) (st : Schedule)
    (pid : ℤ) (σ : ℕ → ℚ) (cursor : ℕ) : Schedule × ℕ × Bool :=
  let missing :=
    match st.get_project_by_id pid with
    | some p => p.get_missing_skills st
    | none => []
  match cfg.processSkills st pid missing σ cursor with
  | (st', cursor', completed) =>
    if completed then
      (st', cursor',
        match st'.get_project_by_id pid with
        | some p => p.is_fully_staffed
        | none => false)
    else (st', cursor', false)

/-- One failed-project record of the results dictionary. -/
structure FailedProject where
  id : ℤ
  name : String
  missing_skills : List String
deriving DecidableEq, Repr

/-- The aggregate statistics dictionary of
GreedyScheduler._calculate_statistics.  utilization_variance stands for
the square of the utilization_std_dev of the source; squaring is
injective on the nonnegative reals, so equality of statistics between
two runs is not affected by the substitution. -/
structure Statistics where
  total_employees : ℕ
  total_projects : ℕ
  fully_staffed_projects : ℕ
  total_cost : ℚ
  total_regular_hours : ℚ
  total_overtime_hours : ℚ
  employees_with_overtime : ℕ
  average_utilization : ℚ
  utilization_variance : ℚ
deriving DecidableEq, Repr

/-- Schedule.get_total_cost. -/
def Schedule.get_total_cost (s : Schedule) : ℚ :=
  (s.employees.map Employee.get_total_cost).sum

/-- GreedyScheduler._calculate_statistics as a pure fold over the final
state. -/
def GreedyScheduler.calculate_statistics (st : Schedule) : Statistics :=
  let utilizations := st.employees.map fun e =>
    e.regular_hours_worked + e.overtime_hours_worked
  let avg : ℚ :=
    if st.employees.isEmpty then 0 else utilizations.sum / utilizations.length
  { total_employees := st.employees.length
    total_projects := st.projects.length
    fully_staffed_projects := (st.projects.filter Project.is_fully_staffed).length
    total_cost := st.get_total_cost
    total_regular_hours := (st.employees.map Employee.regular_hours_worked).sum
    total_overtime_hours := (st.employees.map Employee.overtime_hours_worked).sum
    employees_with_overtime :=
      (st.employees.filter fun e => decide (0 < e.overtime_hours_worked)).length
    average_utilization := avg
    utilization_variance :=
      if 1 < utilizations.length then
        ((utilizations.map fun u => (u - avg) ^ 2).sum) / utilizations.length
      else 0 }

/-- The project loop of GreedyScheduler.schedule over the sorted
project ids, accumulating the scheduled count and the failed list; an
already staffed project counts as scheduled and is skipped; a failed
project is recorded with its missing skills recomputed after the
attempt, and processing always continues with the remaining projects. -/
def GreedyScheduler.processProjects (cfg : GreedyScheduler) (st : Schedule)
    (pids : List ℤ) (σ : ℕ → ℚ) (cursor : ℕ)
    (scheduled : ℕ) (failed : List FailedProject) :
    Schedule × ℕ × ℕ × List FailedProject :=
  match pids with
  | [] => (st, cursor, scheduled, failed)
  | pid :: rest =>
    match st.get_project_by_id pid with
    | none => cfg.processProjects st rest σ cursor scheduled failed
    | some project =>
      if project.is_fully_staffed then
        cfg.processProjects st rest σ cursor (scheduled + 1) failed
      else
        match cfg.schedule_project st pid σ cursor with
        | (st', cursor', success) =>
          if success then
            cfg.processProjects st' rest σ cursor' (scheduled + 1) failed
          else
            let missing :=
              match st'.get_project_by_id pid with
              | some p' => (p'.get_missing_skills st').map SkillType.value
              | none => []
            cfg.processProjects st' rest σ cursor' scheduled
              (failed ++ [⟨pid, project.name, missing⟩])

/-- The results dictionary of GreedyScheduler.schedule. -/
structure RunResult where
  success : Bool
  scheduled_projects : ℕ
  failed_projects : List FailedProject
  warnings : List String
  statistics : Statistics
deriving DecidableEq, Repr

/-- The stable ordering of GreedyScheduler.schedule: key
(-priority, start time) ascending. -/
def projectOrder (p q : Project) : Bool :=
  decide (q.priority < p.priority) ||
    (decide (q.priority = p.priority) && decide (p.time_slot.start ≤ q.time_slot.start))

/-- GreedyScheduler.schedule: process the projects in priority-then-
start order, then derive statistics, the failure flag and the warning
from the final state.  Returns the results dictionary together with
the final schedule state and the position of the tie-break generator
after the run. -/
def GreedyScheduler.schedule (cfg : GreedyScheduler) (sched : Schedule)
    (σ : ℕ → ℚ) (cursor : ℕ) : RunResult × Schedule × ℕ :=
  match cfg.processProjects sched ((sortBy projectOrder sched.projects).map Project.id)
      σ cursor 0 [] with
  | (st', cursor', scheduled, failed) =>
    ({ success := failed.isEmpty
       scheduled_projects := scheduled
       failed_projects := failed
       warnings :=
         if failed.isEmpty then []
         else [toString failed.length ++ " projects could not be fully staffed"]
       statistics := GreedyScheduler.calculate_statistics st' },
     st', cursor')

/-- Configuration of class OptimizedScheduler. -/
structure OptimizedScheduler where
  max_iterations : ℕ := 100
  initial_temperature : ℚ := 1
  greedy_scheduler : GreedyScheduler := {}
deriving DecidableEq, Repr

/-- OptimizedScheduler._attempt_improvement: the stub; it returns False
and performs no mutation. -/
def OptimizedScheduler.attempt_improvement (st : Schedule) (iteration : ℕ) :
    Schedule × Bool :=
  (st, false)

/-- The bounded improvement loop of OptimizedScheduler.schedule over
range(min(max_iterations, 50)), tracking the best cost seen and the
number of improvements made. -/
def OptimizedScheduler.improvementLoop (st : Schedule)
    (iteration remaining : ℕ) (best_cost : ℚ) (improvements : ℕ) :
    Schedule × ℚ × ℕ :=
  match remaining with
  | 0 => (st, best_cost, improvements)
  | n + 1 =>
    match OptimizedScheduler.attempt_improvement st iteration with
    | (st', improved) =>
      let improvements' := if improved then improvements + 1 else improvements
      let current_cost := st'.get_total_cost
      let best' := if current_cost < best_cost then current_cost else best_cost
      OptimizedScheduler.improvementLoop st' (iteration + 1) n best' improvements'

/-- The optimization entry of the results dictionary. -/
structure OptimizationInfo where
  initial_cost : ℚ
  final_cost : ℚ
  improvement : ℚ
  improvement_percentage : ℚ
  improvements_made : ℕ
deriving DecidableEq, Repr

/-- OptimizedScheduler.schedule: run the composed greedy scheduler;
on failure return its results unchanged; otherwise run the improvement
loop, attach the optimization info and recompute the statistics over
the resulting state. -/
def OptimizedScheduler.schedule (opt : OptimizedScheduler) (sched : Schedule)
    (σ : ℕ → ℚ) (cursor : ℕ) :
    (RunResult × Option OptimizationInfo) × Schedule × ℕ :=
  match opt.greedy_scheduler.schedule sched σ cursor with
  | (results, st, cursor') =>
    if results.success then
      let initial_cost := st.get_total_cost
      match OptimizedScheduler.improvementLoop st 0
          (min opt.max_iterations 50) initial_cost 0 with
      | (st', best_cost, improvements_made) =>
        (({ results with
              statistics := GreedyScheduler.calculate_statistics st' },
          some { initial_cost := initial_cost
                 final_cost := best_cost
                 improvement := initial_cost - best_cost
                 improvement_percentage :=
                   if 0 < initial_cost then
                     (initial_cost - best_cost) / initial_cost * 100
                   else 0
                 improvements_made := improvements_made }),
         st', cursor')
    else ((results, none), st, cursor')

/-- The improvement loop never mutates the schedule and never improves
the cost: started at the current total cost it returns the state, the
cost and the improvement counter unchanged, for any iteration budget. -/
theorem improvementLoop_noop (st : Schedule) (i n c : ℕ) :
    OptimizedScheduler.improvementLoop st i n st.get_total_cost c
      = (st, st.get_total_cost, c) := by
  induction n generalizing i with
  | zero => rfl
  | succ n ih =>
    unfold OptimizedScheduler.improvementLoop OptimizedScheduler.attempt_improvement
    simpa using ih (i + 1)

/-- The statistics in the greedy results are exactly the statistics
fold over the final schedule state. -/
theorem greedy_schedule_statistics (cfg : GreedyScheduler) (sched : Schedule)
    (σ : ℕ → ℚ) (cursor : ℕ) :
    (cfg.schedule sched σ cursor).1.statistics
      = GreedyScheduler.calculate_statistics (cfg.schedule sched σ cursor).2.1 := by
  rcases h : cfg.processProjects sched
      ((sortBy projectOrder sched.projects).map Project.id) σ cursor 0 [] with
    ⟨st', cursor', scheduled, failed⟩
  simp [GreedyScheduler.schedule, h]

/-- C9: the optimized strategy is the greedy strategy plus a stub
improvement pass that never mutates: its final schedule state and
generator position coincide with those of a plain greedy run on the
same input, and so do the scheduled count, the failed list, the success
flag and the statistics (hence also the fully staffed project count,
which is a statistics field, so the pass never reduces it). -/
theorem C9_optimized_equals_greedy (opt : OptimizedScheduler) (sched : Schedule)
    (σ : ℕ → ℚ) (cursor : ℕ) :
    (opt.schedule sched σ cursor).2
      = (opt.greedy_scheduler.schedule sched σ cursor).2 ∧
    (opt.schedule sched σ cursor).1.1.scheduled_projects
      = (opt.greedy_scheduler.schedule sched σ cursor).1.scheduled_projects ∧
    (opt.schedule sched σ cursor).1.1.failed_projects
      = (opt.greedy_scheduler.schedule sched σ cursor).1.failed_projects ∧
    (opt.schedule sched σ cursor).1.1.success
      = (opt.greedy_scheduler.schedule sched σ cursor).1.success ∧
    (opt.schedule sched σ cursor).1.1.statistics
      = (opt.greedy_scheduler.schedule sched σ cursor).1.statistics := by
  have hstats := greedy_schedule_statistics opt.greedy_scheduler sched σ cursor
  rcases hg : opt.greedy_scheduler.schedule sched σ cursor with ⟨results, st, cursor'⟩
  rw [hg] at hstats
  replace hstats : results.statistics = GreedyScheduler.calculate_statistics st := hstats
  unfold OptimizedScheduler.schedule
  rw [hg]
  by_cases hs : results.success
  · simp [hs, improvementLoop_noop, hstats]
  · simp [hs]

/-- Selection never rewinds the generator cursor. -/
theorem select_best_cursor_le (cfg : GreedyScheduler) (candidates : List Employee)
    (project : Project) (σ : ℕ → ℚ) (cursor : ℕ) :
    cursor ≤ (cfg.select_best_employee candidates project σ cursor).2 := by
  rcases candidates with _ | ⟨a, _ | ⟨b, rest⟩⟩
  · exact le_refl _
  · exact le_refl _
  · unfold GreedyScheduler.select_best_employee
    rcases hs : sortBy (fun x y => decide (y.1 ≤ x.1))
        ((a :: b :: rest).enum.map fun ke =>
          (cfg.calculate_employee_score ke.2 project (σ (cursor + ke.1)), ke.2)) with
      _ | ⟨top, tail⟩
    · simp [hs]
    · simp [hs]

/-- Selection only reads draws at indices at or beyond the cursor, so
two streams that agree there select identically. -/
theorem select_best_agree (cfg : GreedyScheduler) (candidates : List Employee)
    (project : Project) {σ σ' : ℕ → ℚ} {cursor : ℕ}
    (h : ∀ j, cursor ≤ j → σ j = σ' j) :
    cfg.select_best_employee candidates project σ cursor
      = cfg.select_best_employee candidates project σ' cursor := by
  rcases candidates with _ | ⟨a, _ | ⟨b, rest⟩⟩
  · rfl
  · rfl
  · unfold GreedyScheduler.select_best_employee
    have hmap :
        ((a :: b :: rest).enum.map fun ke =>
          (cfg.calculate_employee_score ke.2 project (σ (cursor + ke.1)), ke.2))
        = ((a :: b :: rest).enum.map fun ke =>
          (cfg.calculate_employee_score ke.2 project (σ' (cursor + ke.1)), ke.2)) := by
      apply List.map_congr_left
      intro ke _
      rw [h (cursor + ke.1) (Nat.le_add_right _ _)]
    rw [hmap]

/-- The skill loop never rewinds the generator cursor. -/
theorem processSkills_cursor_le (cfg : GreedyScheduler) (pid : ℤ)
    (skills : List SkillType) (σ : ℕ → ℚ) :
    ∀ (st : Schedule) (cursor : ℕ),
      cursor ≤ (cfg.processSkills st pid skills σ cursor).2.1 := by
  induction skills with
  | nil => intro st cursor; exact le_refl _
  | cons s rest ih =>
    intro st cursor
    unfold GreedyScheduler.processSkills
    rcases hp : st.get_project_by_id pid with _ | project
    · exact le_refl _
    · by_cases hav : (st.get_available_employees project.time_slot s).isEmpty
      · simp [hav]
      · rcases hs : cfg.select_best_employee
            (st.get_available_employees project.time_slot s) project σ cursor with
          ⟨bestOpt, cursor'⟩
        have hle : cursor ≤ cursor' := by
          have := select_best_cursor_le cfg
            (st.get_available_employees project.time_slot s) project σ cursor
          rw [hs] at this
          exact this
        rcases bestOpt with _ | best
        · simpa [hav, hs] using le_trans hle (ih st cursor')
        · rcases ha : project.assign_employee st best with _ | pe
          · simpa [hav, hs, ha] using le_trans hle (ih st cursor')
          · simpa [hav, hs, ha] using
              le_trans hle (ih ((st.setProject pe.1).setEmployee pe.2) cursor')

/-- The skill loop only reads draws at or beyond the entry cursor. -/
theorem processSkills_agree (cfg : GreedyScheduler) (pid : ℤ)
    (skills : List SkillType) {σ σ' : ℕ → ℚ} :
    ∀ (st : Schedule) (cursor : ℕ), (∀ j, cursor ≤ j → σ j = σ' j) →
      cfg.processSkills st pid skills σ cursor
        = cfg.processSkills st pid skills σ' cursor := by
  induction skills with
  | nil => intro st cursor _; rfl
  | cons s rest ih =>
    intro st cursor h
    unfold GreedyScheduler.processSkills
    rcases hp : st.get_project_by_id pid with _ | project
    · rfl
    · by_cases hav : (st.get_available_employees project.time_slot s).isEmpty
      · simp [hav]
      · rcases hs : cfg.select_best_employee
            (st.get_available_employees project.time_slot s) project σ cursor with
          ⟨bestOpt, cursor'⟩
        have hs' : cfg.select_best_employee
            (st.get_available_employees project.time_slot s) project σ' cursor
            = (bestOpt, cursor') := by
          rw [← select_best_agree cfg _ project h, hs]
        have hle : cursor ≤ cursor' := by
          have := select_best_cursor_le cfg
            (st.get_available_employees project.time_slot s) project σ cursor
          rw [hs] at this
          exact this
        have h' : ∀ j, cursor' ≤ j → σ j = σ' j := fun j hj => h j (le_trans hle hj)
        rcases bestOpt with _ | best
        · simpa [hav, hs, hs'] using ih st cursor' h'
        · rcases ha : project.assign_employee st best with _ | pe
          · simpa [hav, hs, hs', ha] using ih st cursor' h'
          · simpa [hav, hs, hs', ha] using
              ih ((st.setProject pe.1).setEmployee pe.2) cursor' h'

/-- _schedule_project never rewinds the generator cursor. -/
theorem schedule_project_cursor_le (cfg : GreedyScheduler) (st : Schedule)
    (pid : ℤ) (σ : ℕ → ℚ) (cursor : ℕ) :
    cursor ≤ (cfg.schedule_project st pid σ cursor).2.1 := by
  unfold GreedyScheduler.schedule_project
  rcases hps : cfg.processSkills st pid
      (match st.get_project_by_id pid with
       | some p => p.get_missing_skills st
       | none => []) σ cursor with ⟨st', cursor', completed⟩
  have := processSkills_cursor_le cfg pid
    (match st.get_project_by_id pid with
     | some p => p.get_missing_skills st
     | none => []) σ st cursor
  rw [hps] at this
  by_cases hc : completed <;> simp [hps, hc] <;> exact this

/-- _schedule_project only reads draws at or beyond the entry cursor. -/
theorem schedule_project_agree (cfg : GreedyScheduler) (st : Schedule)
    (pid : ℤ) {σ σ' : ℕ → ℚ} {cursor : ℕ}
    (h : ∀ j, cursor ≤ j → σ j = σ' j) :
    cfg.schedule_project st pid σ cursor = cfg.schedule_project st pid σ' cursor := by
  unfold GreedyScheduler.schedule_project
  dsimp only
  rw [processSkills_agree cfg pid _ st cursor h]

/-- The project loop only reads draws at or beyond the entry cursor. -/
theorem processProjects_agree (cfg : GreedyScheduler) (pids : List ℤ)
    {σ σ' : ℕ → ℚ} :
    ∀ (st : Schedule) (cursor : ℕ) (scheduled : ℕ) (failed : List FailedProject),
      (∀ j, cursor ≤ j → σ j = σ' j) →
      cfg.processProjects st pids σ cursor scheduled failed
        = cfg.processProjects st pids σ' cursor scheduled failed := by
  induction pids with
  | nil => intro st cursor scheduled failed _; rfl
  | cons pid rest ih =>
    intro st cursor scheduled failed h
    unfold GreedyScheduler.processProjects
    rcases hp : st.get_project_by_id pid with _ | project
    · exact ih st cursor scheduled failed h
    · by_cases hf : project.is_fully_staffed
      · simpa [hf] using ih st cursor (scheduled + 1) failed h
      · rcases hsp : cfg.schedule_project st pid σ cursor with ⟨st', cursor', success⟩
        have hsp' : cfg.schedule_project st pid σ' cursor = (st', cursor', success) := by
          rw [← schedule_project_agree cfg st pid h, hsp]
        have hle : cursor ≤ cursor' := by
          have := schedule_project_cursor_le cfg st pid σ cursor
          rw [hsp] at this
          exact this
        have h' : ∀ j, cursor' ≤ j → σ j = σ' j := fun j hj => h j (le_trans hle hj)
        by_cases hsucc : success
        · simpa [hf, hsp, hsp', hsucc] using ih st' cursor' (scheduled + 1) failed h'
        · simpa [hf, hsp, hsp', hsucc] using ih st' cursor' scheduled
            (failed ++ [⟨pid, project.name,
              match st'.get_project_by_id pid with
              | some p' => (p'.get_missing_skills st').map SkillType.value
              | none => []⟩]) h'

/-- C6 (amended): a scheduling run is a deterministic function of the
input schedule, the strategy options and the state of the tie-break
generator at entry: the run reads the global stream only from the entry
cursor onward, so two runs whose streams agree from their common entry
cursor produce identical results, final states and exit cursors.  The
scheduler itself accepts no seed; the generator is the process-global
one, so two consecutive runs in one process start at different cursors
and need not coincide (see the companion counterexample). -/
theorem C6_run_determined_by_generator_entry_state (cfg : GreedyScheduler)
    (sched : Schedule) (σ σ' : ℕ → ℚ) (cursor : ℕ)
    (h : ∀ j, cursor ≤ j → σ j = σ' j) :
    cfg.schedule sched σ cursor = cfg.schedule sched σ' cursor := by
  unfold GreedyScheduler.schedule
  rw [processProjects_agree cfg _ sched cursor 0 [] h]

/-- Default flags, as constructed by GreedyScheduler() and by the
OptimizedScheduler composition: balance_workload and minimize_overtime
both on. -/
def greedyDefault : GreedyScheduler := {}

/-- The all-zero tie-break stream. -/
def zeroNoise : ℕ → ℚ := fun _ => 0

/-- Two producers competing for the single coverable skill of one
five-skill project: the tie-break noise decides which one is chosen. -/
def schedC6 : Schedule :=
  { employees :=
      [{ id := 1, name := "A", skills := [SkillType.PRODUCER] },
       { id := 2, name := "B", skills := [SkillType.PRODUCER] }],
    projects :=
      [{ id := 1, name := "P", time_slot := ⟨9, 13⟩,
         required_skills :=
           [SkillType.PRODUCER, SkillType.EDITOR, SkillType.GRAPHICS_DESIGNER,
            SkillType.COLORIST, SkillType.AUDIO_ENGINEER] }] }

/-- A tie-break stream (values in the unit interval, as produced by
random.random()) whose draws 0/1 and 2/3 order the two candidates
differently. -/
def noiseC6 : ℕ → ℚ := fun n => if n = 1 ∨ n = 2 then 1 / 2 else 0

/-- A stream agreeing with noiseC6 from index 2 on but differing at
index 1. -/
def noiseC6' : ℕ → ℚ := fun n => if n = 2 then 1 / 2 else 0

/-- C6 counterexample: the tie-break generator is the process-global
one (scheduler.py line 116 calls random.random() on the module-level
generator; the scheduler accepts no seed), so a second run on the very
same input schedule continues consuming the stream where the first run
stopped and can pick a different employee: with the stream noiseC6,
the first run (entry cursor 0) assigns employee B and the second run
(entry cursor 2, where the first one left the generator) assigns
employee A, refuting identical-assignments-across-runs as stated. -/
theorem C6_counterexample_global_generator :
    (greedyDefault.schedule schedC6 noiseC6 0).2.1
      ≠ (greedyDefault.schedule schedC6 noiseC6
          ((greedyDefault.schedule schedC6 noiseC6 0).2.2)).2.1 := by
  with_unfolding_all decide

/-- Witness for the C6 theorem: two streams that agree from entry
cursor 2 onward (although they differ at index 1) produce identical
runs from cursor 2. -/
theorem C6_run_determined_by_generator_entry_state_witness :
    (∀ j, 2 ≤ j → noiseC6 j = noiseC6' j) ∧
    greedyDefault.schedule schedC6 noiseC6 2
      = greedyDefault.schedule schedC6 noiseC6' 2 := by
  have h : ∀ j, 2 ≤ j → noiseC6 j = noiseC6' j := by
    intro j hj
    have h1 : ¬(j = 1) := by omega
    by_cases h2 : j = 2 <;> simp [noiseC6, noiseC6', h1, h2]
  exact ⟨h, C6_run_determined_by_generator_entry_state greedyDefault schedC6
    noiseC6 noiseC6' 2 h⟩

/-- Overlap of half open intervals is symmetric. -/
theorem overlaps_with_comm (a b : TimeSlot) :
    a.overlaps_with b = b.overlaps_with a := by
  unfold TimeSlot.overlaps_with
  by_cases h1 : a.«end» ≤ b.start <;> by_cases h2 : b.«end» ≤ a.start <;>
    simp [h1, h2, ge_iff_le]

/-- Boolean check that no two assignments in the list have overlapping
slots. -/
def pairwiseNoOverlap : List Assignment → Bool
  | [] => true
  | a :: rest =>
    rest.all (fun b => !a.time_slot.overlaps_with b.time_slot) &&
      pairwiseNoOverlap rest

theorem pairwiseNoOverlap_iff (l : List Assignment) :
    pairwiseNoOverlap l = true
      ↔ l.Pairwise fun a b => a.time_slot.overlaps_with b.time_slot = false := by
  induction l with
  | nil => simp [pairwiseNoOverlap]
  | cons a rest ih =>
    simp [pairwiseNoOverlap, List.all_eq_true, List.pairwise_cons, ih,
      Bool.not_eq_true']

/-- The per-employee invariant: no two committed assignments overlap
and none overlaps an unavailable slot. -/
def Employee.invariantOk (e : Employee) : Bool :=
  pairwiseNoOverlap e.assignments &&
  e.assignments.all fun a =>
    e.unavailable_slots.all fun u => !a.time_slot.overlaps_with u

/-- All employees of the schedule satisfy the invariant. -/
def Schedule.employeesOk (s : Schedule) : Bool :=
  s.employees.all Employee.invariantOk

theorem pairwiseNoOverlap_append_singleton {l : List Assignment} {a : Assignment}
    (hl : pairwiseNoOverlap l = true)
    (ha : ∀ b ∈ l, a.time_slot.overlaps_with b.time_slot = false) :
    pairwiseNoOverlap (l ++ [a]) = true := by
  induction l with
  | nil => simp [pairwiseNoOverlap]
  | cons x xs ih =>
    simp only [pairwiseNoOverlap, Bool.and_eq_true, List.all_eq_true,
      Bool.not_eq_true'] at hl
    simp only [List.cons_append, pairwiseNoOverlap, Bool.and_eq_true,
      List.all_eq_true, Bool.not_eq_true']
    refine ⟨?_, ih hl.2 fun b hb => ha b (List.mem_cons_of_mem _ hb)⟩
    intro b hb
    rcases List.mem_append.mp hb with hbx | hba
    · exact hl.1 b hbx
    · have hba' : b = a := by simpa using hba
      subst hba'
      rw [overlaps_with_comm]
      exact ha x (List.mem_cons_self _ _)

/-- A successful add_assignment preserves the per-employee invariant:
availability guarantees the new slot overlaps neither an existing
assignment nor an unavailable slot. -/
theorem add_assignment_invariant {e e' : Employee} {a : Assignment}
    (hinv : e.invariantOk = true) (h : e.add_assignment a = some e') :
    e'.invariantOk = true := by
  have havail : e.is_available a.time_slot = true := by
    unfold Employee.add_assignment at h
    by_cases hb : e.is_available a.time_slot = true
    · exact hb
    · rw [if_neg hb] at h; cases h
  unfold Employee.is_available at havail
  rw [Bool.and_eq_true] at havail
  have ha := add_assignment_assignments h
  have hu := add_assignment_unavailable h
  unfold Employee.invariantOk at hinv ⊢
  rw [ha, hu]
  rw [Bool.and_eq_true] at hinv ⊢
  constructor
  · refine pairwiseNoOverlap_append_singleton hinv.1 ?_
    intro b hb
    have := (List.all_eq_true.mp havail.2) b hb
    simpa using this
  · rw [List.all_append]
    rw [Bool.and_eq_true]
    refine ⟨hinv.2, ?_⟩
    simp only [List.all_cons, List.all_nil, Bool.and_true]
    rw [List.all_eq_true]
    intro u hu'
    have := (List.all_eq_true.mp havail.1) u hu'
    simpa using this

theorem mem_of_mem_enumFrom {α : Type} :
    ∀ {l : List α} {n : ℕ} {ke : ℕ × α}, ke ∈ l.enumFrom n → ke.2 ∈ l := by
  intro l
  induction l with
  | nil => intro n ke h; cases h
  | cons x xs ih =>
    intro n ke h
    rcases List.mem_cons.mp h with rfl | h2
    · exact List.mem_cons_self _ _
    · exact List.mem_cons_of_mem _ (ih h2)

/-- The selected best candidate is one of the candidates. -/
theorem select_best_mem {cfg : GreedyScheduler} {candidates : List Employee}
    {project : Project} {σ : ℕ → ℚ} {cursor : ℕ} {best : Employee} {cursor' : ℕ}
    (h : cfg.select_best_employee candidates project σ cursor
      = (some best, cursor')) : best ∈ candidates := by
  rcases candidates with _ | ⟨a, _ | ⟨b, rest⟩⟩
  · unfold GreedyScheduler.select_best_employee at h
    simp at h
  · unfold GreedyScheduler.select_best_employee at h
    have ha : a = best := by
      have := congrArg Prod.fst h
      simpa using this
    simp [ha]
  · unfold GreedyScheduler.select_best_employee at h
    dsimp only at h
    rcases hs : sortBy (fun x y => decide (y.1 ≤ x.1))
        ((a :: b :: rest).enum.map fun ke =>
          (cfg.calculate_employee_score ke.2 project (σ (cursor + ke.1)), ke.2)) with
      _ | ⟨top, tail⟩
    · rw [hs] at h
      simp at h
    · rw [hs] at h
      have htop : top.2 = best := by
        have := congrArg Prod.fst h
        simpa using this
    -- top belongs to the sorted list, hence to the scored list
      have hmem : top ∈ sortBy (fun x y => decide (y.1 ≤ x.1))
          ((a :: b :: rest).enum.map fun ke =>
            (cfg.calculate_employee_score ke.2 project (σ (cursor + ke.1)), ke.2)) := by
        rw [hs]; exact List.mem_cons_self _ _
      have hmem2 := (sortBy_perm _ _).mem_iff.mp hmem
      rcases List.mem_map.mp hmem2 with ⟨ke, hke, hkeq⟩
      have : ke.2 = best := by rw [← htop, ← hkeq]
      rw [← this]
      exact mem_of_mem_enumFrom hke

/-- The employee returned by a successful assign_employee satisfies the
invariant whenever the incoming employee does. -/
theorem assign_employee_invariant {p : Project} {st : Schedule} {emp : Employee}
    {pe : Project × Employee} (hinv : emp.invariantOk = true)
    (h : p.assign_employee st emp = some pe) :
    pe.2.invariantOk = true := by
  unfold Project.assign_employee at h
  by_cases hc : p.can_assign_employee st emp = true
  · rw [if_pos hc] at h
    rcases hadd : emp.add_assignment ⟨emp.id, p.id, p.time_slot⟩ with _ | e'
    · rw [hadd] at h
      dsimp only at h
      cases h
    · rw [hadd] at h
      dsimp only at h
      rw [Option.some.injEq] at h
      rw [← h]
      exact add_assignment_invariant hinv hadd
  · rw [if_neg hc] at h; cases h

/-- Writing back an invariant-satisfying employee keeps all employees
invariant-satisfying. -/
theorem setEmployee_employeesOk {s : Schedule} {e : Employee}
    (hs : s.employeesOk = true) (he : e.invariantOk = true) :
    (s.setEmployee e).employeesOk = true := by
  unfold Schedule.employeesOk Schedule.setEmployee at *
  rw [List.all_eq_true] at hs ⊢
  intro x hx
  rcases List.mem_map.mp hx with ⟨y, hy, rfl⟩
  by_cases hid : y.id = e.id
  · simpa [hid] using he
  · simpa [hid] using hs y hy

theorem setProject_employeesOk (s : Schedule) (p : Project) :
    (s.setProject p).employeesOk = s.employeesOk := rfl

/-- Available employees are schedule employees. -/
theorem get_available_employees_subset {s : Schedule} {ts : TimeSlot}
    {skill : SkillType} {e : Employee}
    (h : e ∈ s.get_available_employees ts skill) : e ∈ s.employees := by
  unfold Schedule.get_available_employees at h
  exact List.mem_of_mem_filter h

/-- The skill loop preserves the all-employees invariant. -/
theorem processSkills_employeesOk (cfg : GreedyScheduler) (pid : ℤ)
    (skills : List SkillType) (σ : ℕ → ℚ) :
    ∀ (st : Schedule) (cursor : ℕ), st.employeesOk = true →
      (cfg.processSkills st pid skills σ cursor).1.employeesOk = true := by
  induction skills with
  | nil => intro st cursor h; exact h
  | cons s rest ih =>
    intro st cursor h
    unfold GreedyScheduler.processSkills
    rcases hp : st.get_project_by_id pid with _ | project
    · exact h
    · by_cases hav : (st.get_available_employees project.time_slot s).isEmpty
      · simpa [hav] using h
      · rcases hs : cfg.select_best_employee
            (st.get_available_employees project.time_slot s) project σ cursor with
          ⟨bestOpt, cursor'⟩
        rcases bestOpt with _ | best
        · simpa [hav, hs] using ih st cursor' h
        · rcases ha : project.assign_employee st best with _ | pe
          · simpa [hav, hs, ha] using ih st cursor' h
          · have hbest : best ∈ st.employees :=
              get_available_employees_subset (select_best_mem hs)
            have hbinv : best.invariantOk = true :=
              (List.all_eq_true.mp h) best hbest
            have hnew : pe.2.invariantOk = true :=
              assign_employee_invariant hbinv ha
            have hok : ((st.setProject pe.1).setEmployee pe.2).employeesOk = true := by
              apply setEmployee_employeesOk _ hnew
              rw [setProject_employeesOk]
              exact h
            simpa [hav, hs, ha] using
              ih ((st.setProject pe.1).setEmployee pe.2) cursor' hok

/-- _schedule_project preserves the all-employees invariant. -/
theorem schedule_project_employeesOk (cfg : GreedyScheduler) (st : Schedule)
    (pid : ℤ) (σ : ℕ → ℚ) (cursor : ℕ) (h : st.employeesOk = true) :
    (cfg.schedule_project st pid σ cursor).1.employeesOk = true := by
  unfold GreedyScheduler.schedule_project
  dsimp only
  rcases hps : cfg.processSkills st pid
      (match st.get_project_by_id pid with
       | some p => p.get_missing_skills st
       | none => []) σ cursor with ⟨st', cursor', completed⟩
  have := processSkills_employeesOk cfg pid
    (match st.get_project_by_id pid with
     | some p => p.get_missing_skills st
     | none => []) σ st cursor h
  rw [hps] at this
  by_cases hc : completed <;> simpa [hps, hc] using this

/-- The project loop preserves the all-employees invariant. -/
theorem processProjects_employeesOk (cfg : GreedyScheduler) (pids : List ℤ)
    (σ : ℕ → ℚ) :
    ∀ (st : Schedule) (cursor scheduled : ℕ) (failed : List FailedProject),
      st.employeesOk = true →
      (cfg.processProjects st pids σ cursor scheduled failed).1.employeesOk = true := by
  induction pids with
  | nil => intro st cursor scheduled failed h; exact h
  | cons pid rest ih =>
    intro st cursor scheduled failed h
    unfold GreedyScheduler.processProjects
    rcases hp : st.get_project_by_id pid with _ | project
    · exact ih st cursor scheduled failed h
    · by_cases hf : project.is_fully_staffed
      · simpa [hf] using ih st cursor (scheduled + 1) failed h
      · rcases hsp : cfg.schedule_project st pid σ cursor with ⟨st', cursor', success⟩
        have hok : st'.employeesOk = true := by
          have := schedule_project_employeesOk cfg st pid σ cursor h
          rw [hsp] at this
          exact this
        by_cases hsucc : success
        · simpa [hf, hsp, hsucc] using ih st' cursor' (scheduled + 1) failed hok
        · simpa [hf, hsp, hsucc] using ih st' cursor' scheduled
            (failed ++ [⟨pid, project.name,
              match st'.get_project_by_id pid with
              | some p' => (p'.get_missing_skills st').map SkillType.value
              | none => []⟩]) hok

/-- A full greedy run preserves the all-employees invariant. -/
theorem schedule_run_employeesOk (cfg : GreedyScheduler) (sched : Schedule)
    (σ : ℕ → ℚ) (cursor : ℕ) (h : sched.employeesOk = true) :
    (cfg.schedule sched σ cursor).2.1.employeesOk = true := by
  unfold GreedyScheduler.schedule
  rcases hp : cfg.processProjects sched
      ((sortBy projectOrder sched.projects).map Project.id) σ cursor 0 [] with
    ⟨st', cursor', scheduled, failed⟩
  have := processProjects_employeesOk cfg
    ((sortBy projectOrder sched.projects).map Project.id) σ sched cursor 0 [] h
  rw [hp] at this
  simpa [hp] using this

theorem allPairs_pairwise {α : Type} {R : α → α → Prop} :
    ∀ {l : List α}, l.Pairwise R → ∀ pr ∈ allPairs l, R pr.1 pr.2 := by
  intro l
  induction l with
  | nil => intro _ pr hpr; cases hpr
  | cons x xs ih =>
    intro hp pr hpr
    rcases List.mem_append.mp hpr with hm | hm
    · rcases List.mem_map.mp hm with ⟨y, hy, rfl⟩
      exact (List.pairwise_cons.mp hp).1 y hy
    · exact ih (List.pairwise_cons.mp hp).2 pr hm

/-- An employee whose assignments are pairwise non-overlapping has no
conflicts: sorting permutes the list, the pairwise property transfers
along the permutation because overlap is symmetric, and then every
ordered pair fails the overlap filter. -/
theorem conflicts_empty_of_invariant {e : Employee}
    (h : e.invariantOk = true) : find_employee_conflicts e = [] := by
  unfold Employee.invariantOk at h
  rw [Bool.and_eq_true] at h
  have hpw := (pairwiseNoOverlap_iff e.assignments).mp h.1
  unfold find_employee_conflicts
  dsimp only
  have hperm := sortBy_perm
    (fun a b => decide (a.time_slot.start ≤ b.time_slot.start)) e.assignments
  have hpw' : (sortBy (fun a b => decide (a.time_slot.start ≤ b.time_slot.start))
        e.assignments).Pairwise
      fun a b => a.time_slot.overlaps_with b.time_slot = false :=
    (hperm.pairwise_iff
      (fun hxy => by rw [overlaps_with_comm]; exact hxy)).mpr hpw
  rw [List.filter_eq_nil_iff]
  intro pr hpr
  have := allPairs_pairwise hpw' pr hpr
  simp [this]

/-- C4: starting from a schedule whose employees satisfy the no-overlap
invariant (as all freshly constructed employees do), after a full
greedy run every employee still satisfies it and the Conflict Detector
finds zero overlapping assignment pairs; moreover every commit checks
availability first and rejects without any state change when the
employee is unavailable (add_assignment returns none and no mutated
employee exists). -/
theorem C4_no_conflicts_after_run (cfg : GreedyScheduler) (sched : Schedule)
    (σ : ℕ → ℚ) (cursor : ℕ) (h : sched.employeesOk = true) :
    (∀ e ∈ (cfg.schedule sched σ cursor).2.1.employees,
        find_employee_conflicts e = [] ∧ e.invariantOk = true) ∧
    (∀ (e : Employee) (a : Assignment),
        e.is_available a.time_slot = false → e.add_assignment a = none) := by
  constructor
  · intro e he
    have hok := schedule_run_employeesOk cfg sched σ cursor h
    have hinv : e.invariantOk = true := (List.all_eq_true.mp hok) e he
    exact ⟨conflicts_empty_of_invariant hinv, hinv⟩
  · intro e a hna
    unfold Employee.add_assignment
    rw [if_neg (by rw [hna]; exact Bool.false_ne_true)]

/-- Witness for C4: the concrete two-producer schedule satisfies the
invariant at entry, and the conclusion holds for its greedy run. -/
theorem C4_no_conflicts_after_run_witness :
    schedC6.employeesOk = true ∧
    ((∀ e ∈ (greedyDefault.schedule schedC6 noiseC6 0).2.1.employees,
        find_employee_conflicts e = [] ∧ e.invariantOk = true) ∧
     (∀ (e : Employee) (a : Assignment),
        e.is_available a.time_slot = false → e.add_assignment a = none)) :=
  ⟨by with_unfolding_all decide,
   C4_no_conflicts_after_run greedyDefault schedC6 noiseC6 0
     (by with_unfolding_all decide)⟩

/-- The complete ranked candidate list: identical scoring, draw
consumption and stable descending sort as _select_best_employee, but
returning the whole ranking instead of just its head.  Used only by
the claim-described variant below. -/
def GreedyScheduler.rankCandidates (cfg : GreedyScheduler)
    (candidates : List Employee) (project : Project)
    (σ : ℕ → ℚ) (cursor : ℕ) : List Employee × ℕ :=
  match candidates with
  | [] => ([], cursor)
  | [e] => ([e], cursor)
  | _ =>
    let scored := candidates.enum.map fun ke =>
      (cfg.calculate_employee_score ke.2 project (σ (cursor + ke.1)), ke.2)
    ((sortBy (fun a b => decide (b.1 ≤ a.1)) scored).map Prod.snd,
     cursor + candidates.length)

/-- Modelled from the spec (claim C5): attempt commits down the ranked
candidate list until one succeeds, i.e. a failed commit skips to the
next candidate for the same missing skill. -/
def tryCandidates (st : Schedule) (pid : ℤ) : List Employee → Schedule
  | [] => st
  | best :: more =>
    match st.get_project_by_id pid with
    | none => st
    | some project =>
      match project.assign_employee st best with
      | some pe => (st.setProject pe.1).setEmployee pe.2
      | none => tryCandidates st pid more

/-- Modelled from the spec (claim C5): the skill loop as the claim
describes it, identical to processSkills except that a failed commit
moves on to the NEXT CANDIDATE for the same missing skill rather than
to the next skill. -/
def GreedyScheduler.processSkillsNextCandidate (cfg : GreedyScheduler)
    (st : Schedule) (pid : ℤ) (skills : List SkillType)
    (σ : ℕ → ℚ) (cursor : ℕ) : Schedule × ℕ × Bool :=
  match skills with
  | [] => (st, cursor, true)
  | skill :: rest =>
    match st.get_project_by_id pid with
    | none => (st, cursor, false)
    | some project =>
      let available := st.get_available_employees project.time_slot skill
      if available.isEmpty then
        (st, cursor, false)
      else
        match cfg.rankCandidates available project σ cursor with
        | (ranked, cursor') =>
          cfg.processSkillsNextCandidate (tryCandidates st pid ranked)
            pid rest σ cursor'

/-- Modelled from the spec (claim C5): _schedule_project on top of the
next-candidate skill loop. -/
def GreedyScheduler.schedule_project_next_candidate (cfg : GreedyScheduler)
    (st : Schedule) (pid : ℤ) (σ : ℕ → ℚ) (cursor : ℕ) :
    Schedule × ℕ × Bool :=
  let missing :=
    match st.get_project_by_id pid with
    | some p => p.get_missing_skills st
    | none => []
  match cfg.processSkillsNextCandidate st pid missing σ cursor with
  | (st', cursor', completed) =>
    if completed then
      (st', cursor',
        match st'.get_project_by_id pid with
        | some p => p.is_fully_staffed
        | none => false)
    else (st', cursor', false)

/-- Input on which next-skill and next-candidate behaviour diverge:
employee 1 covers Producer and Editor, so after its commit the stale
missing-skill list still contains Editor; the best Editor candidate
(employee 2, Editor only) then fails its commit. -/
def schedC5 : Schedule :=
  { employees :=
      [{ id := 1, name := "E1",
         skills := [SkillType.PRODUCER, SkillType.EDITOR] },
       { id := 2, name := "E2", skills := [SkillType.EDITOR] },
       { id := 3, name := "E3",
         skills := [SkillType.EDITOR, SkillType.GRAPHICS_DESIGNER] },
       { id := 4, name := "E4", skills := [SkillType.GRAPHICS_DESIGNER] }],
    projects :=
      [{ id := 1, name := "P", time_slot := ⟨9, 13⟩,
         required_skills :=
           [SkillType.PRODUCER, SkillType.EDITOR, SkillType.GRAPHICS_DESIGNER,
            SkillType.COLORIST, SkillType.AUDIO_ENGINEER] }] }

/-- Tie-break stream making employee 2 beat employee 3 for Editor and
employee 4 beat employee 3 for Graphics Designer. -/
def noiseC5 : ℕ → ℚ := fun n => if n = 0 ∨ n = 3 then 1 / 2 else 0

/-- C5 counterexample: on schedC5 the source code (whose except
ValueError: continue resumes the SKILL loop) ends the project attempt
with employees 1 and 4 assigned, while the claimed next-candidate
behaviour would end it with employees 1 and 3 assigned: the two final
schedule states differ, so the code does not skip to the next
candidate. -/
theorem C5_counterexample_skips_skill_not_candidate :
    (greedyDefault.schedule_project schedC5 1 noiseC5 0).1
      ≠ (greedyDefault.schedule_project_next_candidate schedC5 1 noiseC5 0).1 := by
  with_unfolding_all decide

/-- C5 (amended): when the commit of the selected best candidate fails,
the skill loop proceeds to the next missing skill of the same project
from the unchanged state (with the draws for that selection consumed):
previously committed assignments are kept and the remaining skills are
still attempted, so the project is not abandoned — but the failed skill
is not retried with another candidate. -/
theorem C5_failed_commit_skips_to_next_skill (cfg : GreedyScheduler)
    (st : Schedule) (pid : ℤ) (skill : SkillType) (rest : List SkillType)
    (σ : ℕ → ℚ) (cursor : ℕ) (project : Project) (best : Employee) (cursor' : ℕ)
    (hp : st.get_project_by_id pid = some project)
    (hav : (st.get_available_employees project.time_slot skill).isEmpty = false)
    (hsel : cfg.select_best_employee
        (st.get_available_employees project.time_slot skill) project σ cursor
      = (some best, cursor'))
    (hfail : project.assign_employee st best = none) :
    cfg.processSkills st pid (skill :: rest) σ cursor
      = cfg.processSkills st pid rest σ cursor' := by
  simp only [GreedyScheduler.processSkills, hp, hav, hsel, hfail,
    Bool.false_eq_true, if_false]

/-- The state of schedC5 after employee 1 was committed to the project:
the stage at which the Editor commit of employee 2 fails. -/
def stC5 : Schedule :=
  { employees :=
      [{ id := 1, name := "E1",
         skills := [SkillType.PRODUCER, SkillType.EDITOR],
         regular_hours_worked := 4,
         assignments := [⟨1, 1, ⟨9, 13⟩⟩] },
       { id := 2, name := "E2", skills := [SkillType.EDITOR] },
       { id := 3, name := "E3",
         skills := [SkillType.EDITOR, SkillType.GRAPHICS_DESIGNER] },
       { id := 4, name := "E4", skills := [SkillType.GRAPHICS_DESIGNER] }],
    projects :=
      [{ id := 1, name := "P", time_slot := ⟨9, 13⟩,
         required_skills :=
           [SkillType.PRODUCER, SkillType.EDITOR, SkillType.GRAPHICS_DESIGNER,
            SkillType.COLORIST, SkillType.AUDIO_ENGINEER],
         assigned_employees := [1] }] }

/-- The project of stC5. -/
def projC5 : Project :=
  { id := 1, name := "P", time_slot := ⟨9, 13⟩,
    required_skills :=
      [SkillType.PRODUCER, SkillType.EDITOR, SkillType.GRAPHICS_DESIGNER,
       SkillType.COLORIST, SkillType.AUDIO_ENGINEER],
    assigned_employees := [1] }

/-- Employee 2 of stC5. -/
def empC5 : Employee := { id := 2, name := "E2", skills := [SkillType.EDITOR] }

/-- Witness for the amended C5 theorem at the concrete stage of stC5:
the best Editor candidate is employee 2, its commit fails, and the loop
continues with the remaining skills from the unchanged state. -/
theorem C5_failed_commit_skips_to_next_skill_witness :
    stC5.get_project_by_id 1 = some projC5 ∧
    (stC5.get_available_employees projC5.time_slot SkillType.EDITOR).isEmpty
      = false ∧
    greedyDefault.select_best_employee
        (stC5.get_available_employees projC5.time_slot SkillType.EDITOR)
        projC5 noiseC5 0 = (some empC5, 2) ∧
    projC5.assign_employee stC5 empC5 = none ∧
    greedyDefault.processSkills stC5 1
        [SkillType.EDITOR, SkillType.GRAPHICS_DESIGNER, SkillType.COLORIST,
         SkillType.AUDIO_ENGINEER] noiseC5 0
      = greedyDefault.processSkills stC5 1
        [SkillType.GRAPHICS_DESIGNER, SkillType.COLORIST,
         SkillType.AUDIO_ENGINEER] noiseC5 2 := by
  have h1 : stC5.get_project_by_id 1 = some projC5 := by with_unfolding_all rfl
  have h2 : (stC5.get_available_employees projC5.time_slot
      SkillType.EDITOR).isEmpty = false := by with_unfolding_all rfl
  have h3 : greedyDefault.select_best_employee
      (stC5.get_available_employees projC5.time_slot SkillType.EDITOR)
      projC5 noiseC5 0 = (some empC5, 2) := by with_unfolding_all rfl
  have h4 : projC5.assign_employee stC5 empC5 = none := by
    with_unfolding_all rfl
  exact ⟨h1, h2, h3, h4,
    C5_failed_commit_skips_to_next_skill greedyDefault stC5 1 SkillType.EDITOR
      [SkillType.GRAPHICS_DESIGNER, SkillType.COLORIST, SkillType.AUDIO_ENGINEER]
      noiseC5 0 projC5 empC5 2 h1 h2 h3 h4⟩

/-- Four employees covering Editor, Graphics Designer, Colorist and
Audio Engineer; the uncovered skill Producer comes FIRST in the
declaration order of the single five-skill project. -/
def schedC7 : Schedule :=
  { employees :=
      [{ id := 1, name := "G1", skills := [SkillType.EDITOR] },
       { id := 2, name := "G2", skills := [SkillType.GRAPHICS_DESIGNER] },
       { id := 3, name := "G3", skills := [SkillType.COLORIST] },
       { id := 4, name := "G4", skills := [SkillType.AUDIO_ENGINEER] }],
    projects :=
      [{ id := 1, name := "P", time_slot := ⟨9, 13⟩,
         required_skills :=
           [SkillType.PRODUCER, SkillType.EDITOR, SkillType.GRAPHICS_DESIGNER,
            SkillType.COLORIST, SkillType.AUDIO_ENGINEER] }] }

/-- Same employees, but the uncovered skill Producer comes LAST in the
declaration order of the required skills. -/
def schedC7last : Schedule :=
  { employees :=
      [{ id := 1, name := "G1", skills := [SkillType.EDITOR] },
       { id := 2, name := "G2", skills := [SkillType.GRAPHICS_DESIGNER] },
       { id := 3, name := "G3", skills := [SkillType.COLORIST] },
       { id := 4, name := "G4", skills := [SkillType.AUDIO_ENGINEER] }],
    projects :=
      [{ id := 1, name := "P", time_slot := ⟨9, 13⟩,
         required_skills :=
           [SkillType.EDITOR, SkillType.GRAPHICS_DESIGNER, SkillType.COLORIST,
            SkillType.AUDIO_ENGINEER, SkillType.PRODUCER] }] }

/-- C7 counterexample: with the uncovered skill first in declaration
order, _schedule_project returns False from the very first skill (zero
candidates), before attempting any of the four coverable skills: the
failed-project record names all five skills as missing, not exactly the
one uncovered skill, and zero (not four) assignments are retained. -/
theorem C7_counterexample_early_exit :
    (greedyDefault.schedule schedC7 zeroNoise 0).1.failed_projects
      = [⟨1, "P", ["Producer", "Editor", "Graphics Designer", "Colorist",
          "Audio Engineer"]⟩] ∧
    ((greedyDefault.schedule schedC7 zeroNoise 0).2.1.employees.all
      fun e => e.assignments.isEmpty) = true := by
  with_unfolding_all decide

/-- Writing back a project changes no project id. -/
theorem setProject_project_ids (s : Schedule) (p : Project) :
    (s.setProject p).projects.map Project.id = s.projects.map Project.id := by
  unfold Schedule.setProject
  dsimp only
  rw [List.map_map]
  apply List.map_congr_left
  intro x _
  by_cases h : x.id = p.id <;> simp [h, Function.comp]

theorem setEmployee_project_ids (s : Schedule) (e : Employee) :
    (s.setEmployee e).projects.map Project.id = s.projects.map Project.id := rfl

/-- The skill loop changes no project id. -/
theorem processSkills_project_ids (cfg : GreedyScheduler) (pid : ℤ)
    (skills : List SkillType) (σ : ℕ → ℚ) :
    ∀ (st : Schedule) (cursor : ℕ),
      (cfg.processSkills st pid skills σ cursor).1.projects.map Project.id
        = st.projects.map Project.id := by
  induction skills with
  | nil => intro st cursor; rfl
  | cons s rest ih =>
    intro st cursor
    unfold GreedyScheduler.processSkills
    rcases hp : st.get_project_by_id pid with _ | project
    · rfl
    · by_cases hav : (st.get_available_employees project.time_slot s).isEmpty
      · simp [hav]
      · rcases hs : cfg.select_best_employee
            (st.get_available_employees project.time_slot s) project σ cursor with
          ⟨bestOpt, cursor'⟩
        rcases bestOpt with _ | best
        · simpa [hav, hs] using ih st cursor'
        · rcases ha : project.assign_employee st best with _ | pe
          · simpa [hav, hs, ha] using ih st cursor'
          · have := ih ((st.setProject pe.1).setEmployee pe.2) cursor'
            rw [setEmployee_project_ids, setProject_project_ids] at this
            simpa [hav, hs, ha] using this

/-- _schedule_project changes no project id. -/
theorem schedule_project_project_ids (cfg : GreedyScheduler) (st : Schedule)
    (pid : ℤ) (σ : ℕ → ℚ) (cursor : ℕ) :
    (cfg.schedule_project st pid σ cursor).1.projects.map Project.id
      = st.projects.map Project.id := by
  unfold GreedyScheduler.schedule_project
  dsimp only
  rcases hps : cfg.processSkills st pid
      (match st.get_project_by_id pid with
       | some p => p.get_missing_skills st
       | none => []) σ cursor with ⟨st', cursor', completed⟩
  have := processSkills_project_ids cfg pid
    (match st.get_project_by_id pid with
     | some p => p.get_missing_skills st
     | none => []) σ st cursor
  rw [hps] at this
  by_cases hc : completed <;> simpa [hps, hc] using this

/-- A project id present among the projects is always found. -/
theorem get_project_by_id_isSome {s : Schedule} {pid : ℤ}
    (h : pid ∈ s.projects.map Project.id) :
    ∃ p, s.get_project_by_id pid = some p := by
  unfold Schedule.get_project_by_id
  rcases List.mem_map.mp h with ⟨p, hp, rfl⟩
  rcases hf : s.projects.find? (fun q => decide (q.id = p.id)) with _ | q
  · rw [List.find?_eq_none] at hf
    exact absurd (by simp : decide (p.id = p.id) = true) (by simpa using hf p hp)
  · exact ⟨q, hf⟩

/-- Every processed project contributes exactly one unit to either the
scheduled count or the failed list: none is silently dropped and no
failure stops the loop. -/
theorem processProjects_counts (cfg : GreedyScheduler) (σ : ℕ → ℚ) :
    ∀ (pids : List ℤ) (st : Schedule) (cursor scheduled : ℕ)
      (failed : List FailedProject),
      (∀ pid ∈ pids, pid ∈ st.projects.map Project.id) →
      (cfg.processProjects st pids σ cursor scheduled failed).2.2.1
        + (cfg.processProjects st pids σ cursor scheduled failed).2.2.2.length
        = scheduled + failed.length + pids.length := by
  intro pids
  induction pids with
  | nil => intro st cursor scheduled failed _; simp [GreedyScheduler.processProjects]
  | cons pid rest ih =>
    intro st cursor scheduled failed h
    obtain ⟨project, hp⟩ := get_project_by_id_isSome (h pid (List.mem_cons_self _ _))
    unfold GreedyScheduler.processProjects
    rw [hp]
    by_cases hf : project.is_fully_staffed
    · have := ih st cursor (scheduled + 1) failed
        (fun q hq => h q (List.mem_cons_of_mem _ hq))
      simp only [hf, if_true]
      rw [this]
      simp only [List.length_cons]
      omega
    · rcases hsp : cfg.schedule_project st pid σ cursor with ⟨st', cursor', success⟩
      have hids : st'.projects.map Project.id = st.projects.map Project.id := by
        have := schedule_project_project_ids cfg st pid σ cursor
        rw [hsp] at this
        exact this
      have hrest : ∀ q ∈ rest, q ∈ st'.projects.map Project.id := by
        intro q hq
        rw [hids]
        exact h q (List.mem_cons_of_mem _ hq)
      by_cases hsucc : success
      · have := ih st' cursor' (scheduled + 1) failed hrest
        simp only [hf, if_false, hsp, hsucc, if_true, Bool.false_eq_true]
        rw [this]
        simp only [List.length_cons]
        omega
      · have := ih st' cursor' scheduled
          (failed ++ [⟨pid, project.name,
            match st'.get_project_by_id pid with
            | some p' => (p'.get_missing_skills st').map SkillType.value
            | none => []⟩]) hrest
        simp only [hf, if_false, hsp, hsucc, Bool.false_eq_true]
        rw [this]
        simp only [List.length_append, List.length_cons, List.length_nil]
        omega

/-- C7 (amended): an under-staffed project is a structured partial
result, never a run-level error: every project of the input contributes
exactly one unit to scheduledProjects or to failedProjects, so the run
always continues past a failed project.  Within the failing project,
processing stops at the first required-but-uncoverable skill in
declaration order, so the assignments committed before that point are
retained and the failure record lists the skills still missing then;
when the single uncovered skill comes last in declaration order this
yields exactly the behaviour the claim describes: the record names
precisely the one uncovered skill, and the four successful assignments
are retained (one per employee on schedC7last). -/
theorem C7_understaffed_is_partial_result (cfg : GreedyScheduler)
    (sched : Schedule) (σ : ℕ → ℚ) (cursor : ℕ) :
    ((cfg.schedule sched σ cursor).1.scheduled_projects
        + (cfg.schedule sched σ cursor).1.failed_projects.length
      = sched.projects.length) ∧
    (greedyDefault.schedule schedC7last zeroNoise 0).1.failed_projects
      = [⟨1, "P", ["Producer"]⟩] ∧
    ((greedyDefault.schedule schedC7last zeroNoise 0).2.1.employees.map
        fun e => e.assignments.length) = [1, 1, 1, 1] := by
  refine ⟨?_, by with_unfolding_all rfl, by with_unfolding_all rfl⟩
  have hsubset : ∀ pid ∈ (sortBy projectOrder sched.projects).map Project.id,
      pid ∈ sched.projects.map Project.id := by
    intro pid hpid
    rcases List.mem_map.mp hpid with ⟨p, hpmem, rfl⟩
    exact List.mem_map_of_mem _ ((sortBy_perm projectOrder sched.projects).subset hpmem)
  have hcount := processProjects_counts cfg σ
    ((sortBy projectOrder sched.projects).map Project.id) sched cursor 0 [] hsubset
  rcases hp : cfg.processProjects sched
      ((sortBy projectOrder sched.projects).map Project.id) σ cursor 0 [] with
    ⟨st', cursor', scheduled, failed⟩
  rw [hp] at hcount
  have hlen : ((sortBy projectOrder sched.projects).map Project.id).length
      = sched.projects.length := by
    rw [List.length_map]
    exact (sortBy_perm projectOrder sched.projects).length_eq
  unfold GreedyScheduler.schedule
  rw [hp]
  dsimp only
  simp only [List.length_nil] at hcount
  omega

end VibraSched
